import Mathlib

set_option autoImplicit false

/-
Verification of the form-state runtime (react-advanced-form).

The development shallowly embeds the parts of src/components/Form.jsx that the
verified properties are about: the JavaScript value model used for the fields
tree, the Ramda utilities the code calls (mergeDeepLeft / mergeDeepRight,
path / pathOr / hasPath / assocPath), the state-patch reconciler
(applyStatePatch), the rxjs bufferTime pipelines wired in the Form
constructor, the validation-result combinators
(reduceValidationResults / mapToSingleResult), the form-level validate,
submit, and the withRegisteredField-guarded field handlers.
-/

namespace ReactAdvancedForm

/-- A JavaScript value as the form state stores it: primitives, arrays, and
plain objects modelled as ordered association lists of string keys. -/
inductive JSVal where
  | null
  | bool (b : Bool)
  | num (n : Int)
  | str (s : String)
  | arr (items : List JSVal)
  | obj (fields : List (String × JSVal))

/-- Property lookup on a JS object's key/value list (first match wins; JS
objects cannot hold duplicate keys, so the entry is unique in practice). -/
def lookupKey (k : String) : List (String × JSVal) → Option JSVal
  | [] => none
  | (k2, v) :: rest => if k2 = k then some v else lookupKey k rest

/-- Whether a value is a plain object (Ramda's internal isObject check, which
is what decides whether a deep merge recurses). -/
def isObjV : JSVal → Bool
  | JSVal.obj _ => true
  | _ => false

/-- JavaScript truthiness of a value. -/
def jsTruthy : JSVal → Bool
  | JSVal.null => false
  | JSVal.bool b => b
  | JSVal.num n => n != 0
  | JSVal.str s => s != ""
  | JSVal.arr _ => true
  | JSVal.obj _ => true

mutual
/-- The key walk of Ramda's mergeWithKey as specialised by mergeDeepWithKey:
the left object's keys in order, each value combined with the right object's
value under the same key when present. -/
def mergeObjFields (preferRight : Bool) (lf rf : List (String × JSVal)) :
    List (String × JSVal) :=
  match lf with
  | [] => []
  | (k, lv) :: rest =>
      (k,
        match lookupKey k rf with
        | some rv => mergeVal preferRight lv rv
        | none => lv) :: mergeObjFields preferRight rest rf
termination_by sizeOf lf

/-- Ramda mergeDeepWithKey's per-key combine: recurse when both values are
plain objects, otherwise take the preferred side's value. -/
def mergeVal (preferRight : Bool) (l r : JSVal) : JSVal :=
  match l, r with
  | JSVal.obj lf, JSVal.obj rf =>
      JSVal.obj (mergeObjFields preferRight lf rf ++
        rf.filter (fun p => (lookupKey p.1 lf).isNone))
  | l, r => if preferRight then r else l
termination_by sizeOf l
end

/-- Deep merge of two objects' key/value lists: the left object's keys in
order with combined values, then the keys present only in the right object. -/
def mergeDeepObj (preferRight : Bool) (lf rf : List (String × JSVal)) :
    List (String × JSVal) :=
  mergeObjFields preferRight lf rf ++
    rf.filter (fun p => (lookupKey p.1 lf).isNone)

/-- Ramda mergeDeepRight. On non-object operands Ramda degenerates to
iterating whatever own keys exist (none for primitives); the form only ever
merges objects at the top level. -/
def mergeDeepRight (l r : JSVal) : JSVal :=
  match l, r with
  | JSVal.obj lf, JSVal.obj rf => JSVal.obj (mergeDeepObj true lf rf)
  | JSVal.obj lf, _ => JSVal.obj lf
  | _, JSVal.obj rf => JSVal.obj rf
  | _, _ => JSVal.obj []

/-- Ramda mergeDeepLeft. -/
def mergeDeepLeft (l r : JSVal) : JSVal :=
  match l, r with
  | JSVal.obj lf, JSVal.obj rf => JSVal.obj (mergeDeepObj false lf rf)
  | JSVal.obj lf, _ => JSVal.obj lf
  | _, JSVal.obj rf => JSVal.obj rf
  | _, _ => JSVal.obj []

/-- Ramda path: walk a list of string keys through nested objects, undefined
(none) as soon as a key is missing or a non-object is entered. -/
def pathLookup : List String → JSVal → Option JSVal
  | [], v => some v
  | k :: rest, JSVal.obj fs =>
      match lookupKey k fs with
      | some v => pathLookup rest v
      | none => none
  | _ :: _, _ => none

/-- Ramda hasPath: an empty path never holds, otherwise the walk must reach
an existing entry. -/
def hasPath (p : List String) (v : JSVal) : Bool :=
  match p with
  | [] => false
  | _ :: _ => (pathLookup p v).isSome

/-- Ramda pathOr: the value at the path, or the default when absent. -/
def pathOr (d : JSVal) (p : List String) (v : JSVal) : JSVal :=
  (pathLookup p v).getD d

/-- Key assignment on a JS object's entry list: replace in place when the key
exists, append otherwise (JS object assignment order semantics). -/
def assocKey (k : String) (v : JSVal) : List (String × JSVal) → List (String × JSVal)
  | [] => [(k, v)]
  | (k2, v2) :: rest =>
      if k2 = k then (k2, v) :: rest else (k2, v2) :: assocKey k v rest

/-- Ramda assoc: shallow-clone an object with one key set. -/
def assoc (k : String) (v : JSVal) : JSVal → JSVal
  | JSVal.obj fs => JSVal.obj (assocKey k v fs)
  | _ => JSVal.obj [(k, v)]

/-- Ramda assocPath: set a value at a nested path, descending into an
existing object child and creating fresh objects elsewhere. -/
def assocPath : List String → JSVal → JSVal → JSVal
  | [], v, _ => v
  | [k], v, o => assoc k v o
  | k :: k2 :: rest, v, o =>
      let child :=
        match o with
        | JSVal.obj fs =>
            match lookupKey k fs with
            | some (JSVal.obj cf) => JSVal.obj cf
            | _ => JSVal.obj []
        | _ => JSVal.obj []
      assoc k (assocPath (k2 :: rest) v child) o

/-! State patch reconciler (Form.jsx applyStatePatch / promiseState). -/

/-- One state patch as emitted on the applyStatePatch channel: the JS value
is the array [fieldPath, updateChunk, callback?]. The callback is identified
by a number; the reconciler only forwards arguments to it. -/
structure StatePatch where
  fieldPath : List String
  stateChunk : JSVal
  callback : Option Nat

/-- Modelled from the spec: the stitchWith utility (src/utils/stitchWith) is
not among the provided sources. Per spec section 4.2 step 2 and the call-site
comment in Form.jsx, the patch list is folded left to right into one object:
each patch's fieldPath (the head of the patch triple) is the thread path, and
the needle merges the patch's state chunk left-biased over whatever has
already been stitched at that path (pathOr with an empty-object default). -/
def stitchPatches (statePatches : List StatePatch) : JSVal :=
  statePatches.foldl
    (fun acc p =>
      assocPath p.fieldPath
        (mergeDeepLeft p.stateChunk (pathOr (JSVal.obj []) p.fieldPath acc)) acc)
    (JSVal.obj [])

/-- The grouped per-path updates of applyStatePatch (Form.jsx:174-194): drop
the patches whose fieldPath is absent from the previous tree, then stitch the
survivors into a single object. -/
def mergedUpdates (prevFields : JSVal) (statePatches : List StatePatch) : JSVal :=
  stitchPatches (statePatches.filter (fun p => hasPath p.fieldPath prevFields))

/-- The next fields tree applyStatePatch computes: the stitched updates
deep-merged right-biased over the previous tree. -/
def nextFieldsOf (prevFields : JSVal) (statePatches : List StatePatch) : JSVal :=
  mergeDeepRight prevFields (mergedUpdates prevFields statePatches)

/-- One observed callback invocation: the callback identity, the value the
reconciler passes as the field record (R.path of the patch's fieldPath in the
committed tree, undefined possible), and the committed tree itself. -/
structure CallbackCall where
  cb : Nat
  fieldRecord : Option JSVal
  fieldsArg : JSVal

/-- The callback loop after the state commit (Form.jsx:204-208): iterate the
ORIGINAL statePatches in arrival order and, for each patch carrying a
callback, invoke it with (R.path(fieldPath, nextFields), nextFields). -/
def runCallbacks (nextFields : JSVal) (statePatches : List StatePatch) :
    List CallbackCall :=
  statePatches.foldl
    (fun acc p =>
      match p.callback with
      | some cb =>
          acc ++ [CallbackCall.mk cb (pathLookup p.fieldPath nextFields) nextFields]
      | none => acc)
    []

/-- The observable outcome of one applyStatePatch call: the fields tree that
is visible afterwards, and either the ordered callback invocations (promise
fulfilled) or a rejection (promiseState caught a commit failure). -/
structure ApplyResult where
  visibleFields : JSVal
  outcome : Except Unit (List CallbackCall)

/-- applyStatePatch (Form.jsx:171-210) against an explicit commit step
(promiseState, Form.jsx:154-162): compute the next tree, attempt the commit,
and only on success run the callback loop over the committed tree; a throwing
commit rejects the promise, leaves the previous tree visible and runs no
callback. -/
def applyStatePatchRun (commit : JSVal → Except Unit JSVal)
    (prevFields : JSVal) (statePatches : List StatePatch) : ApplyResult :=
  let next := nextFieldsOf prevFields statePatches
  match commit next with
  | Except.ok committed =>
      ApplyResult.mk committed (Except.ok (runCallbacks committed statePatches))
  | Except.error e => ApplyResult.mk prevFields (Except.error e)

/-- applyStatePatch on the ordinary path where setState commits the computed
tree as given. -/
def applyStatePatch (prevFields : JSVal) (statePatches : List StatePatch) :
    ApplyResult :=
  applyStatePatchRun Except.ok prevFields statePatches

/-! Event buffering pipelines (Form.jsx constructor, lines 121-141). -/

section Buffering

variable {α : Type}

/-- The payloads an rxjs bufferTime(debounceMs) buffer collects for its
window number i: the events (arrival-ordered, timestamped) whose timestamp
falls in [debounceMs*i, debounceMs*(i+1)). -/
def windowEvents (debounceMs i : Nat) (events : List (Nat × α)) : List α :=
  (events.filter
    (fun e => decide (debounceMs * i ≤ e.1) && decide (e.1 < debounceMs * (i + 1)))).map
    Prod.snd

/-- The buffers bufferTime(debounceMs) emits over the first windowCount
windows: one list per window, empty lists included (rxjs emits a buffer at
every interval whether or not events arrived). -/
def bufferTimeDeliveries (debounceMs windowCount : Nat) (events : List (Nat × α)) :
    List (List α) :=
  (List.range windowCount).map (fun i => windowEvents debounceMs i events)

/-- The fieldRegister pipeline (Form.jsx:121-123): bufferTime(50) with no
empty-buffer filter; its subscriber receives every window's buffer. -/
def fieldRegisterDeliveries (windowCount : Nat) (events : List (Nat × α)) :
    List (List α) :=
  bufferTimeDeliveries 50 windowCount events

/-- The fieldRegister subscriber runs pendingFields.forEach(registerField),
so registerField itself is invoked once per buffered event. -/
def registerFieldInvocations (windowCount : Nat) (events : List (Nat × α)) :
    List α :=
  (fieldRegisterDeliveries windowCount events).flatten

/-- The fieldUnregister and applyStatePatch pipelines (Form.jsx:129-141):
bufferTime(50) followed by filter(complement(isEmpty)), so empty buffers are
suppressed before they reach the handler. -/
def filteredBufferDeliveries (windowCount : Nat) (events : List (Nat × α)) :
    List (List α) :=
  (bufferTimeDeliveries 50 windowCount events).filter (fun b => !b.isEmpty)

end Buffering

/-! Validation result combinators (the mapToSingleResult module). -/

/-- A validator's result: the expected flag and the ordered rejected rules. -/
structure ValidationResult where
  expected : Bool
  rejectedRules : List String

/-- reduceValidationResults: fold a list of results into the accumulator,
AND-ing expected (acc.expected ? result.expected : acc.expected) and
concatenating rejectedRules. -/
def reduceValidationResults (initialAcc : ValidationResult)
    (results : List ValidationResult) : ValidationResult :=
  results.foldl
    (fun acc result =>
      ValidationResult.mk
        (if acc.expected then result.expected else acc.expected)
        (acc.rejectedRules ++ result.rejectedRules))
    initialAcc

/-- The binary combination of two validation results, as one
reduceValidationResults step performs it. -/
def combineResults (a b : ValidationResult) : ValidationResult :=
  reduceValidationResults a [b]

/-- What one validator call may return: a single result or an array of
results (mapToSingleResult wraps the former into a one-element array). -/
inductive ValidatorOutput where
  | single (result : ValidationResult)
  | multiple (results : List ValidationResult)

/-- The array normalisation mapToSingleResult applies to a validator's
return value. -/
def toResultList : ValidatorOutput → List ValidationResult
  | ValidatorOutput.single r => [r]
  | ValidatorOutput.multiple rs => rs

/-- mapToSingleResult: run the validators in declaration order, folding their
(normalised) results through reduceValidationResults from the initial
accumulator (expected true, no rejected rules). -/
def mapToSingleResult {γ : Type} (validators : List (γ → ValidatorOutput))
    (args : γ) : ValidationResult :=
  validators.foldl
    (fun acc validator => reduceValidationResults acc (toResultList (validator args)))
    (ValidationResult.mk true [])

/-! Validation orchestrator (Form.validate / Form.validateField). -/

/-- Whether a JS object owns the given key (R.has). -/
def hasKey (k : String) (v : JSVal) : Bool :=
  match v with
  | JSVal.obj fs => (lookupKey k fs).isSome
  | _ => false

/-- The entry walk of getLeavesWhich over an object's key/value list: a value
satisfying the predicate is collected, any other object value is descended
into, and other values contribute nothing. -/
def getLeavesWhichList (pred : JSVal → Bool) (fs : List (String × JSVal)) :
    List JSVal :=
  match fs with
  | [] => []
  | (_, v) :: rest =>
      (if pred v then [v]
       else
         match v with
         | JSVal.obj cf => getLeavesWhichList pred cf
         | _ => []) ++ getLeavesWhichList pred rest
termination_by sizeOf fs

/-- Modelled from the spec: getLeavesWhich (src/utils/getLeavesWhich) is not
among the provided sources. Per spec section 4.3 it filters the tree down to
the matching leaves only, walking the nested objects depth-first. -/
def getLeavesWhich (pred : JSVal → Bool) (tree : JSVal) : List JSVal :=
  match tree with
  | JSVal.obj fs => getLeavesWhichList pred fs
  | v => if pred v then [v] else []

/-- Modelled from the spec: the inner validate handler
(src/utils/handlers/validateField) is not among the provided sources. Per
spec section 4.4 it produces the record patch with validated set, expected
from the combined ValidationResult of the field's rule chain (an external
oracle here), errors derived from the rejected rules, and touched once the
field is invalid. -/
def validationPatch (ruleOracle : JSVal → ValidationResult)
    (fieldProps : JSVal) : JSVal :=
  let result := ruleOracle fieldProps
  JSVal.obj
    [("validated", JSVal.bool true),
     ("expected", JSVal.bool result.expected),
     ("errors", JSVal.arr (result.rejectedRules.map JSVal.str)),
     ("touched",
       JSVal.bool (jsTruthy (pathOr JSVal.null ["touched"] fieldProps) || !result.expected))]

/-- Form.validateField (Form.jsx:561-594) on a record taken from the state:
await the validation patch and return it deep-merged left-biased over the
field props. -/
def validateField (ruleOracle : JSVal → ValidationResult)
    (fieldProps : JSVal) : JSVal :=
  mergeDeepLeft (validationPatch ruleOracle fieldProps) fieldProps

/-- R.propEq on a boolean-valued property, as Form.validate applies it to the
validated records (their expected property is always a boolean). -/
def propEqBool (k : String) (b : Bool) (r : JSVal) : Bool :=
  match r with
  | JSVal.obj fs =>
      match lookupKey k fs with
      | some (JSVal.bool b2) => b2 == b
      | _ => false
  | _ => false

/-- The leaf filter Form.validate builds:
R.allPass [R.is(Object), R.has(fieldPath), predicate]. -/
def validateLeafPred (pred : JSVal → Bool) (v : JSVal) : Bool :=
  isObjV v && hasKey "fieldPath" v && pred v

/-- Form.validate (Form.jsx:605-641): validate every matching leaf, await all
results, compute the aggregate with every(propEq(expected, true)), and when
the aggregate is false and an onInvalid callback is configured, hand that
callback the validated records filtered by propEq(expected, false). The
returned pair is (isFormValid, the argument onInvalid received if it was
invoked). -/
def formValidate (ruleOracle : JSVal → ValidationResult) (pred : JSVal → Bool)
    (fields : JSVal) (hasOnInvalid : Bool) : Bool × Option (List JSVal) :=
  let flattenedFields := getLeavesWhich (validateLeafPred pred) fields
  let validatedFields := flattenedFields.map (validateField ruleOracle)
  let isFormValid := validatedFields.all (propEqBool "expected" true)
  let onInvalidArg :=
    if !isFormValid && hasOnInvalid then
      some (validatedFields.filter (propEqBool "expected" false))
    else none
  (isFormValid, onInvalidArg)

/-! Form.submit (Form.jsx:762-838). -/

/-- What the externally supplied action returns when invoked: a thenable
that later fulfills or rejects, or a non-thenable value (the async action
contract violation). -/
inductive ActionResult where
  | thenable (pending : Except JSVal JSVal)
  | nonThenable (value : JSVal)

/-- The externally observable trace of one submit() call: whether
onSubmitStart fired, how many times the action was invoked, whether the
thenable invariant assertion failed, which completion hooks fired, and
whether the call yields a result (an invalid form returns undefined). -/
structure SubmitTrace where
  onSubmitStartFired : Bool
  actionInvocations : Nat
  assertionFailed : Bool
  onSubmittedFired : Bool
  onSubmitFailedFired : Bool
  onSubmitEndFired : Bool
  returnsResult : Bool

/-- Form.submit: await the form-level validate() (default predicate); on an
invalid form return undefined at once; otherwise serialize, fire
onSubmitStart, invoke the action exactly once, assert its return value is
thenable (a failed assertion throws before any completion hook), then funnel
fulfillment to onSubmitted and rejection to onSubmitFailed, both followed by
onSubmitEnd. -/
def submit (ruleOracle : JSVal → ValidationResult) (fields : JSVal)
    (hasOnInvalid : Bool) (action : ActionResult) : SubmitTrace :=
  let isFormValid := (formValidate ruleOracle (fun _ => true) fields hasOnInvalid).1
  if isFormValid then
    match action with
    | ActionResult.nonThenable _ =>
        SubmitTrace.mk true 1 true false false false false
    | ActionResult.thenable (Except.ok _) =>
        SubmitTrace.mk true 1 false true false true true
    | ActionResult.thenable (Except.error _) =>
        SubmitTrace.mk true 1 false false true true true
  else
    SubmitTrace.mk false 0 false false false false false

/-! Field interaction handlers and their registration guard
(Form.jsx:258-261 and 447-549). -/

/-- The externally observable effects of one field handler call: the patches
it emits on the applyStatePatch channel, the patches it applies directly via
this.applyStatePatch, how many field hooks it dispatches, and whether it
throws. -/
structure FieldHandlerEffects where
  emittedPatches : List StatePatch
  directPatches : List StatePatch
  hookDispatches : Nat
  errored : Bool

/-- The effects of a handler that did nothing. -/
def noEffects : FieldHandlerEffects :=
  FieldHandlerEffects.mk [] [] 0 false

/-- withRegisteredField (Form.jsx:258-261): run the wrapped function only
when R.path(fieldProps.fieldPath, state.fields) is truthy; otherwise the
short-circuited conjunction returns without calling it. -/
def withRegisteredField (body : Unit → FieldHandlerEffects) (fields : JSVal)
    (fieldPath : List String) : FieldHandlerEffects :=
  match pathLookup fieldPath fields with
  | some record => if jsTruthy record then body () else noEffects
  | none => noEffects

/-- The patch recordUtils.setFocused(true, \x7b\x7d) builds for a focus
event; modelled from the spec's record transformation functions
(set focused). -/
def focusPatch : JSVal :=
  JSVal.obj [("focused", JSVal.bool true)]

/-- handleFieldFocus (Form.jsx:447-462): guarded by withRegisteredField, it
emits one applyStatePatch with the focus patch and an onFocus-dispatching
callback. -/
def handleFieldFocus (fields : JSVal) (fieldPath : List String) :
    FieldHandlerEffects :=
  withRegisteredField
    (fun _ => FieldHandlerEffects.mk [StatePatch.mk fieldPath focusPatch (some 0)] [] 0 false)
    fields fieldPath

/-- handleFieldChange (Form.jsx:471-515): guarded by withRegisteredField; the
guarded body (handlers.handleFieldChange plus the intermediate and final
patches) is kept abstract because the claim is about the unregistered
branch. -/
def handleFieldChange (body : Unit → FieldHandlerEffects) (fields : JSVal)
    (fieldPath : List String) : FieldHandlerEffects :=
  withRegisteredField body fields fieldPath

/-- handleFieldBlur (Form.jsx:522-549): guarded by withRegisteredField, it
emits one applyStatePatch with the blur-and-validation patch computed by
handlers.handleFieldBlur (abstract here) and an onBlur-dispatching
callback. -/
def handleFieldBlur (blurPatch : JSVal) (fields : JSVal)
    (fieldPath : List String) : FieldHandlerEffects :=
  withRegisteredField
    (fun _ => FieldHandlerEffects.mk [StatePatch.mk fieldPath blurPatch (some 0)] [] 0 false)
    fields fieldPath

/-! Shared concrete sample data and accessors used by the statements. -/

/-- The callback invocations an ApplyResult carries (none on rejection). -/
def callsOf (r : ApplyResult) : List CallbackCall :=
  match r.outcome with
  | Except.ok cs => cs
  | Except.error _ => []

/-- A sample registered field record at path a. -/
def sampleRecordA : JSVal :=
  JSVal.obj
    [("fieldPath", JSVal.arr [JSVal.str "a"]),
     ("value", JSVal.str "x"),
     ("touched", JSVal.bool false)]

/-- A sample fields tree holding only the record at path a. -/
def sampleFieldsA : JSVal := JSVal.obj [("a", sampleRecordA)]

/-- A sample patch addressed to the unregistered path b, carrying a
callback. -/
def samplePatchB : StatePatch :=
  StatePatch.mk ["b"] (JSVal.obj [("touched", JSVal.bool true)]) (some 7)

/-- A sample required field record at path b whose value is empty. -/
def sampleRecordB : JSVal :=
  JSVal.obj
    [("fieldPath", JSVal.arr [JSVal.str "b"]),
     ("value", JSVal.str "")]

/-- A sample fields tree holding only the empty required record at path b. -/
def sampleFieldsB : JSVal := JSVal.obj [("b", sampleRecordB)]

/-- A sample rule chain outcome: a required rule that rejects exactly the
records whose value is falsy. -/
def requiredValueOracle : JSVal → ValidationResult :=
  fun r =>
    ValidationResult.mk (jsTruthy (pathOr JSVal.null ["value"] r)) ["required"]

/-- A sample rule chain outcome that accepts every record. -/
def alwaysValidOracle : JSVal → ValidationResult :=
  fun _ => ValidationResult.mk true []

/-!
Lemmas about the embedded Ramda utilities.
-/

theorem lookupKey_append (k : String) (a b : List (String × JSVal)) :
    lookupKey k (a ++ b) =
      match lookupKey k a with
      | some v => some v
      | none => lookupKey k b := by
  induction a with
  | nil => simp [lookupKey]
  | cons p rest ih =>
      obtain ⟨k2, v⟩ := p
      by_cases h : k2 = k <;> simp [lookupKey, h, ih]

theorem lookupKey_mergeObjFields (pr : Bool) (k : String)
    (lf rf : List (String × JSVal)) :
    lookupKey k (mergeObjFields pr lf rf) =
      (lookupKey k lf).map
        (fun lv =>
          match lookupKey k rf with
          | some rv => mergeVal pr lv rv
          | none => lv) := by
  induction lf with
  | nil => simp [mergeObjFields, lookupKey]
  | cons p rest ih =>
      obtain ⟨k2, lv⟩ := p
      by_cases h : k2 = k
      · subst h
        simp [mergeObjFields, lookupKey]
      · simp [mergeObjFields, lookupKey, h, ih]

theorem lookupKey_filterNotIn (k : String) (lf rf : List (String × JSVal)) :
    lookupKey k (rf.filter (fun p => (lookupKey p.1 lf).isNone)) =
      if (lookupKey k lf).isNone then lookupKey k rf else none := by
  induction rf with
  | nil => simp [lookupKey]
  | cons p rest ih =>
      obtain ⟨k2, v⟩ := p
      by_cases h : k2 = k
      · subst h
        by_cases h2 : (lookupKey k2 lf).isNone <;>
          simp [List.filter_cons, lookupKey, h2, ih]
      · by_cases h2 : (lookupKey k2 lf).isNone <;>
          simp [List.filter_cons, lookupKey, h, h2, ih]

theorem lookupKey_mergeDeepObj (pr : Bool) (k : String)
    (lf rf : List (String × JSVal)) :
    lookupKey k (mergeDeepObj pr lf rf) =
      match lookupKey k lf, lookupKey k rf with
      | some lv, some rv => some (mergeVal pr lv rv)
      | some lv, none => some lv
      | none, some rv => some rv
      | none, none => none := by
  rw [mergeDeepObj, lookupKey_append, lookupKey_mergeObjFields, lookupKey_filterNotIn]
  cases h1 : lookupKey k lf <;> cases h2 : lookupKey k rf <;> simp [h1, h2]

theorem mergeVal_left_nonobj (pr : Bool) (l r : JSVal) (h : isObjV l = false) :
    mergeVal pr l r = if pr then r else l := by
  cases l <;> cases r <;> simp_all [mergeVal, isObjV]

theorem mergeObjFields_nil_right (pr : Bool) (lf : List (String × JSVal)) :
    mergeObjFields pr lf [] = lf := by
  induction lf with
  | nil => simp [mergeObjFields]
  | cons p rest ih =>
      obtain ⟨k, lv⟩ := p
      simp [mergeObjFields, lookupKey, ih]

theorem mergeDeepObj_nil_right (pr : Bool) (lf : List (String × JSVal)) :
    mergeDeepObj pr lf [] = lf := by
  simp [mergeDeepObj, mergeObjFields_nil_right]

theorem lookupKey_assocKey_self (k : String) (v : JSVal)
    (fs : List (String × JSVal)) :
    lookupKey k (assocKey k v fs) = some v := by
  induction fs with
  | nil => simp [assocKey, lookupKey]
  | cons p rest ih =>
      obtain ⟨k2, v2⟩ := p
      by_cases h : k2 = k <;> simp [assocKey, lookupKey, h, ih]

theorem pathLookup_assoc_self (k : String) (v o : JSVal) :
    pathLookup [k] (assoc k v o) = some v := by
  cases o <;> simp [assoc, pathLookup, lookupKey_assocKey_self, lookupKey]

theorem pathLookup_assocPath_self (p : List String) (v o : JSVal) (h : p ≠ []) :
    pathLookup p (assocPath p v o) = some v := by
  induction p generalizing v o with
  | nil => exact absurd rfl h
  | cons k rest ih =>
      cases rest with
      | nil => simpa [assocPath] using pathLookup_assoc_self k v o
      | cons k2 rest2 =>
          have hne : (k2 :: rest2) ≠ ([] : List String) := by simp
          cases o with
          | obj fs =>
              simp only [assocPath, assoc]
              simp [pathLookup, lookupKey_assocKey_self, ih _ _ hne]
          | null => simp [assocPath, assoc, pathLookup, lookupKey_assocKey_self, ih _ _ hne, lookupKey]
          | bool b => simp [assocPath, assoc, pathLookup, lookupKey_assocKey_self, ih _ _ hne, lookupKey]
          | num n => simp [assocPath, assoc, pathLookup, lookupKey_assocKey_self, ih _ _ hne, lookupKey]
          | str s => simp [assocPath, assoc, pathLookup, lookupKey_assocKey_self, ih _ _ hne, lookupKey]
          | arr items => simp [assocPath, assoc, pathLookup, lookupKey_assocKey_self, ih _ _ hne, lookupKey]

theorem pathLookup_emptyObj_none (p : List String) (h : p ≠ []) :
    pathLookup p (JSVal.obj []) = none := by
  cases p with
  | nil => exact absurd rfl h
  | cons k rest => simp [pathLookup, lookupKey]

/-!
Lemmas about the reconciler's callback loop.
-/

theorem runCallbacks_foldl_acc (nf : JSVal) (ps : List StatePatch)
    (acc : List CallbackCall) :
    ps.foldl
      (fun acc p =>
        match p.callback with
        | some cb =>
            acc ++ [CallbackCall.mk cb (pathLookup p.fieldPath nf) nf]
        | none => acc) acc =
      acc ++
        ps.filterMap
          (fun p =>
            p.callback.map
              (fun cb => CallbackCall.mk cb (pathLookup p.fieldPath nf) nf)) := by
  induction ps generalizing acc with
  | nil => simp
  | cons p rest ih =>
      cases h : p.callback <;>
        simp [List.foldl_cons, List.filterMap_cons, h, ih]

theorem runCallbacks_eq (nf : JSVal) (ps : List StatePatch) :
    runCallbacks nf ps =
      ps.filterMap
        (fun p =>
          p.callback.map
            (fun cb => CallbackCall.mk cb (pathLookup p.fieldPath nf) nf)) := by
  unfold runCallbacks
  rw [runCallbacks_foldl_acc]
  simp

/-!
Claim C1.
-/

/-- C1 counterexample: the claim says a patch addressed to an absent path
never has its callback invoked, but the callback loop iterates the original
patch list, so a batch holding only one patch to the unregistered path b
still invokes that patch's callback (with undefined as the record and the
committed tree). -/
theorem applyStatePatch_dropped_callback_invoked :
    hasPath ["b"] sampleFieldsA = false ∧
    callsOf (applyStatePatch sampleFieldsA [samplePatchB]) =
      [CallbackCall.mk 7 none sampleFieldsA] := by
  constructor
  · rfl
  · simp [callsOf, applyStatePatch, applyStatePatchRun, runCallbacks_eq,
      nextFieldsOf, mergedUpdates, stitchPatches, samplePatchB, sampleFieldsA,
      hasPath, pathLookup, lookupKey, mergeDeepRight, mergeDeepObj,
      mergeObjFields_nil_right, sampleRecordA]

/-- C1 (amended): a patch in the batch whose fieldPath is absent from the
current tree leaves the committed tree exactly as it would be without that
patch, but when the patch carries a callback that callback is still invoked
after the commit, with the value at the patch's path in the committed tree
(undefined unless some other patch materialised it) and the full committed
tree. -/
theorem applyStatePatch_absent_path (prev : JSVal) (ps1 ps2 : List StatePatch)
    (p : StatePatch) (cb : Nat)
    (habs : hasPath p.fieldPath prev = false) (hcb : p.callback = some cb) :
    (applyStatePatch prev (ps1 ++ p :: ps2)).visibleFields =
      (applyStatePatch prev (ps1 ++ ps2)).visibleFields ∧
    CallbackCall.mk cb
        (pathLookup p.fieldPath (applyStatePatch prev (ps1 ++ p :: ps2)).visibleFields)
        ((applyStatePatch prev (ps1 ++ p :: ps2)).visibleFields) ∈
      callsOf (applyStatePatch prev (ps1 ++ p :: ps2)) := by
  constructor
  · simp [applyStatePatch, applyStatePatchRun, nextFieldsOf, mergedUpdates,
      List.filter_append, List.filter_cons, habs]
  · rw [callsOf]
    simp only [applyStatePatch, applyStatePatchRun]
    rw [runCallbacks_eq]
    exact List.mem_filterMap.mpr ⟨p, by simp, by simp [hcb]⟩

/-- C1 witness: the amended theorem applied to the concrete one-patch batch
addressed to the unregistered path b. -/
theorem applyStatePatch_absent_path_witness :
    hasPath ["b"] sampleFieldsA = false ∧
    samplePatchB.callback = some 7 ∧
    ((applyStatePatch sampleFieldsA [samplePatchB]).visibleFields =
        (applyStatePatch sampleFieldsA []).visibleFields ∧
      CallbackCall.mk 7
          (pathLookup ["b"] (applyStatePatch sampleFieldsA [samplePatchB]).visibleFields)
          ((applyStatePatch sampleFieldsA [samplePatchB]).visibleFields) ∈
        callsOf (applyStatePatch sampleFieldsA [samplePatchB])) :=
  ⟨rfl, rfl, applyStatePatch_absent_path sampleFieldsA [] [] samplePatchB 7 rfl rfl⟩

/-!
Claim C3.
-/

/-- C3: after a successful commit, every patch in the batch carrying a
callback has it invoked with the committed value at that patch's path and the
full committed tree; the invocations follow patch arrival order (filterMap
over the original batch) and all of them observe the one committed tree. -/
theorem applyStatePatch_callbacks (prevFields : JSVal)
    (statePatches : List StatePatch) :
    (applyStatePatch prevFields statePatches).outcome =
      Except.ok
        (statePatches.filterMap
          (fun p =>
            p.callback.map
              (fun cb =>
                CallbackCall.mk cb
                  (pathLookup p.fieldPath
                    (applyStatePatch prevFields statePatches).visibleFields)
                  ((applyStatePatch prevFields statePatches).visibleFields)))) := by
  simp [applyStatePatch, applyStatePatchRun, runCallbacks_eq]

/-!
Claim C4.
-/

/-- C4: when committing the merged state fails, the promise applyStatePatch
returns rejects, no patch callback is invoked (the outcome carries no
invocation list) and the previous tree stays visible unchanged. -/
theorem applyStatePatch_commit_failure (commit : JSVal → Except Unit JSVal)
    (prev : JSVal) (ps : List StatePatch)
    (h : commit (nextFieldsOf prev ps) = Except.error ()) :
    (applyStatePatchRun commit prev ps).outcome = Except.error () ∧
    (applyStatePatchRun commit prev ps).visibleFields = prev := by
  simp [applyStatePatchRun, h]

/-- C4 witness: a commit step that always throws, applied to the sample
tree. -/
theorem applyStatePatch_commit_failure_witness :
    (fun _ => (Except.error () : Except Unit JSVal))
        (nextFieldsOf sampleFieldsA [samplePatchB]) = Except.error () ∧
    ((applyStatePatchRun (fun _ => Except.error ()) sampleFieldsA [samplePatchB]).outcome =
        Except.error () ∧
      (applyStatePatchRun (fun _ => Except.error ()) sampleFieldsA [samplePatchB]).visibleFields =
        sampleFieldsA) :=
  ⟨rfl,
    applyStatePatch_commit_failure (fun _ => Except.error ()) sampleFieldsA
      [samplePatchB] rfl⟩

/-!
Claim C2.
-/

/-- C2: in a batch of two patches addressed to the same (registered) path,
the stitched per-path update is the later chunk deep-merged left-biased over
the earlier one: a key set by the later patch keeps the later patch's value
(stated for non-object values, where no deeper merge applies), and a key the
later patch does not set falls back to the earlier patch's value. -/
theorem mergedUpdates_left_bias (prev : JSVal) (fp : List String)
    (c1f c2f : List (String × JSVal)) (cb1 cb2 : Option Nat) (k : String)
    (hfp : hasPath fp prev = true) :
    pathLookup fp
        (mergedUpdates prev
          [StatePatch.mk fp (JSVal.obj c1f) cb1,
           StatePatch.mk fp (JSVal.obj c2f) cb2]) =
      some (JSVal.obj (mergeDeepObj false c2f c1f)) ∧
    (∀ v, lookupKey k c2f = some v → isObjV v = false →
      lookupKey k (mergeDeepObj false c2f c1f) = some v) ∧
    (lookupKey k c2f = none →
      lookupKey k (mergeDeepObj false c2f c1f) = lookupKey k c1f) := by
  have hne : fp ≠ [] := by
    cases fp with
    | nil => simp [hasPath] at hfp
    | cons a b => simp
  refine ⟨?_, ?_, ?_⟩
  · have h1 : pathLookup fp (JSVal.obj []) = none := pathLookup_emptyObj_none fp hne
    simp only [mergedUpdates, List.filter_cons, List.filter_nil, hfp, if_true,
      stitchPatches, List.foldl_cons, List.foldl_nil, pathOr, h1, Option.getD_none]
    rw [show mergeDeepLeft (JSVal.obj c1f) (JSVal.obj []) = JSVal.obj c1f by
      simp [mergeDeepLeft, mergeDeepObj_nil_right]]
    rw [pathLookup_assocPath_self fp (JSVal.obj c1f) (JSVal.obj []) hne]
    simp only [Option.getD_some]
    rw [show mergeDeepLeft (JSVal.obj c2f) (JSVal.obj c1f) =
        JSVal.obj (mergeDeepObj false c2f c1f) from rfl]
    exact pathLookup_assocPath_self fp _ _ hne
  · intro v hv hobj
    rw [lookupKey_mergeDeepObj, hv]
    cases h1 : lookupKey k c1f <;> simp [mergeVal_left_nonobj _ _ _ hobj]
  · intro h0
    rw [lookupKey_mergeDeepObj, h0]
    cases h1 : lookupKey k c1f <;> simp

/-- C2 witness: two concrete patches to the registered path a; the later
patch's touched value wins and the earlier patch's dirty key survives. -/
theorem mergedUpdates_left_bias_witness :
    hasPath ["a"] sampleFieldsA = true ∧
    (pathLookup ["a"]
        (mergedUpdates sampleFieldsA
          [StatePatch.mk ["a"]
            (JSVal.obj [("touched", JSVal.bool true), ("dirty", JSVal.bool true)]) none,
           StatePatch.mk ["a"] (JSVal.obj [("touched", JSVal.bool false)]) none]) =
      some (JSVal.obj
        (mergeDeepObj false [("touched", JSVal.bool false)]
          [("touched", JSVal.bool true), ("dirty", JSVal.bool true)])) ∧
    (∀ v, lookupKey "touched" [("touched", JSVal.bool false)] = some v →
      isObjV v = false →
      lookupKey "touched"
          (mergeDeepObj false [("touched", JSVal.bool false)]
            [("touched", JSVal.bool true), ("dirty", JSVal.bool true)]) = some v) ∧
    (lookupKey "touched" [("touched", JSVal.bool false)] = none →
      lookupKey "touched"
          (mergeDeepObj false [("touched", JSVal.bool false)]
            [("touched", JSVal.bool true), ("dirty", JSVal.bool true)]) =
        lookupKey "touched" [("touched", JSVal.bool true), ("dirty", JSVal.bool true)])) :=
  ⟨rfl,
    mergedUpdates_left_bias sampleFieldsA ["a"]
      [("touched", JSVal.bool true), ("dirty", JSVal.bool true)]
      [("touched", JSVal.bool false)] none none "touched" rfl⟩

/-!
Claim C5.
-/

theorem windowEvents_all_in {α : Type} (i : Nat) (events : List (Nat × α))
    (hall : ∀ e ∈ events, 50 * i ≤ e.1 ∧ e.1 < 50 * (i + 1)) :
    windowEvents 50 i events = events.map Prod.snd := by
  unfold windowEvents
  rw [List.filter_eq_self.mpr]
  intro e he
  have := hall e he
  simp [this.1, this.2]

theorem windowEvents_out_of_window {α : Type} (i j : Nat)
    (events : List (Nat × α))
    (hall : ∀ e ∈ events, 50 * i ≤ e.1 ∧ e.1 < 50 * (i + 1)) (hij : j ≠ i) :
    windowEvents 50 j events = [] := by
  unfold windowEvents
  rw [List.filter_eq_nil_iff.mpr]
  · rfl
  · intro e he
    have := hall e he
    simp only [Bool.and_eq_true, decide_eq_true_eq, not_and]
    intro hj
    omega

theorem filter_nonempty_single_window {β : Type} (w i : Nat) (B : List β)
    (hi : i < w) (hB : B ≠ []) :
    ((List.range w).map (fun j => if j = i then B else [])).filter
        (fun b => !b.isEmpty) = [B] := by
  induction w with
  | zero => omega
  | succ n ih =>
      rw [List.range_succ, List.map_append, List.filter_append]
      by_cases h : i = n
      · subst h
        have hfront :
            ((List.range i).map (fun j => if j = i then B else [])).filter
              (fun b => !b.isEmpty) = [] := by
          rw [List.filter_eq_nil_iff.mpr]
          intro b hb
          rcases List.mem_map.mp hb with ⟨j, hj, rfl⟩
          have : j ≠ i := Nat.ne_of_lt (List.mem_range.mp hj)
          simp [this]
        simp [hfront, hB]
      · have hi2 : i < n := by omega
        have hni : n ≠ i := fun hh => h hh.symm
        rw [ih hi2]
        simp [hni]

theorem flatten_single_window {β : Type} (w i : Nat) (B : List β) :
    ((List.range w).map (fun j => if j = i then B else [])).flatten =
      if i < w then B else [] := by
  induction w with
  | zero => simp
  | succ n ih =>
      rw [List.range_succ, List.map_append, List.flatten_append]
      by_cases h : i = n
      · subst h
        have : ¬i < i := Nat.lt_irrefl i
        rw [ih]
        simp [this, Nat.lt_succ_self]
      · have hni : n ≠ i := fun hh => h hh.symm
        by_cases h2 : i < n
        · rw [ih]
          simp [h2, hni, Nat.lt_succ_of_lt h2]
        · rw [ih]
          have h3 : ¬i < n + 1 := by omega
          simp [h2, hni, h3]

/-- C5 (amended): N same-kind events inside one buffering window reach the
pipeline's subscriber as one buffer holding all N in arrival order. For
fieldUnregister and applyStatePatch an explicit empty filter means empty
windows deliver nothing, so the subscriber is called exactly once over the
observed windows; for fieldRegister there is no such filter: the subscriber
receives every window's buffer (the empty ones included) and registerField
is invoked once per buffered event, hence exactly the N events in arrival
order and never for an empty window. -/
theorem buffered_events_single_delivery {α : Type} (windowCount i : Nat)
    (events : List (Nat × α)) (hi : i < windowCount) (hne : events ≠ [])
    (hall : ∀ e ∈ events, 50 * i ≤ e.1 ∧ e.1 < 50 * (i + 1)) :
    filteredBufferDeliveries windowCount events = [events.map Prod.snd] ∧
    fieldRegisterDeliveries windowCount events =
      (List.range windowCount).map
        (fun j => if j = i then events.map Prod.snd else []) ∧
    registerFieldInvocations windowCount events = events.map Prod.snd := by
  have hmap :
      fieldRegisterDeliveries windowCount events =
        (List.range windowCount).map
          (fun j => if j = i then events.map Prod.snd else []) := by
    unfold fieldRegisterDeliveries bufferTimeDeliveries
    apply List.map_congr_left
    intro j hj
    by_cases h : j = i
    · subst h
      rw [if_pos rfl]
      exact windowEvents_all_in _ events hall
    · simp [h, windowEvents_out_of_window i j events hall h]
  refine ⟨?_, hmap, ?_⟩
  · have hB : events.map Prod.snd ≠ [] := by
      cases events with
      | nil => exact absurd rfl hne
      | cons e rest => simp
    unfold filteredBufferDeliveries
    rw [show bufferTimeDeliveries 50 windowCount events =
        fieldRegisterDeliveries windowCount events from rfl, hmap]
    exact filter_nonempty_single_window windowCount i (events.map Prod.snd) hi hB
  · unfold registerFieldInvocations
    rw [hmap, flatten_single_window]
    simp [hi]

/-- C5 counterexample: a buffering window in which no fieldRegister event was
emitted still produces a delivery to that pipeline's subscriber (the empty
buffer), because the fieldRegister pipeline lacks the empty filter that the
fieldUnregister and applyStatePatch pipelines apply. -/
theorem fieldRegister_empty_window_delivered :
    fieldRegisterDeliveries 1 ([] : List (Nat × Nat)) = [[]] ∧
    filteredBufferDeliveries 1 ([] : List (Nat × Nat)) = [] := by
  constructor <;> rfl

/-- C5 witness: two events in the first of two windows; the filtered
pipelines deliver the single full batch, the fieldRegister subscriber is
called with the full batch and then an empty buffer, and registerField runs
once per event. -/
theorem buffered_events_single_delivery_witness :
    0 < 2 ∧ ([(0, 10), (10, 20)] : List (Nat × Nat)) ≠ [] ∧
    (∀ e ∈ ([(0, 10), (10, 20)] : List (Nat × Nat)),
      50 * 0 ≤ e.1 ∧ e.1 < 50 * (0 + 1)) ∧
    (filteredBufferDeliveries 2 ([(0, 10), (10, 20)] : List (Nat × Nat)) =
        [[10, 20]] ∧
      fieldRegisterDeliveries 2 ([(0, 10), (10, 20)] : List (Nat × Nat)) =
        (List.range 2).map (fun j => if j = 0 then [10, 20] else []) ∧
      registerFieldInvocations 2 ([(0, 10), (10, 20)] : List (Nat × Nat)) =
        [10, 20]) :=
  ⟨Nat.zero_lt_succ 1, by simp, by decide,
    buffered_events_single_delivery 2 0 [(0, 10), (10, 20)] (by decide)
      (by simp) (by decide)⟩

/-!
Claim C6.
-/

theorem reduceValidationResults_cons (acc r : ValidationResult)
    (rs : List ValidationResult) :
    reduceValidationResults acc (r :: rs) =
      reduceValidationResults
        (ValidationResult.mk (if acc.expected then r.expected else acc.expected)
          (acc.rejectedRules ++ r.rejectedRules)) rs := rfl

theorem combineResults_def (a b : ValidationResult) :
    combineResults a b =
      ValidationResult.mk (if a.expected then b.expected else a.expected)
        (a.rejectedRules ++ b.rejectedRules) := rfl

/-- C6: combining validation results ANDs the expected flags and concatenates
the rejected rules in declaration order; the binary combination is
associative, and commutative on the expected flag. -/
theorem validation_results_combine :
    (∀ (acc : ValidationResult) (rs : List ValidationResult),
      (reduceValidationResults acc rs).expected =
        (acc.expected && rs.all (fun r => r.expected)) ∧
      (reduceValidationResults acc rs).rejectedRules =
        acc.rejectedRules ++ (rs.map (fun r => r.rejectedRules)).flatten) ∧
    (∀ a b c : ValidationResult,
      combineResults (combineResults a b) c =
        combineResults a (combineResults b c)) ∧
    (∀ a b : ValidationResult,
      (combineResults a b).expected = (combineResults b a).expected) := by
  refine ⟨?_, ?_, ?_⟩
  · intro acc rs
    induction rs generalizing acc with
    | nil => simp [reduceValidationResults]
    | cons r rest ih =>
        rw [reduceValidationResults_cons]
        refine ⟨?_, ?_⟩
        · rw [(ih _).1]
          cases h : acc.expected <;> simp [h]
        · rw [(ih _).2]
          simp [List.append_assoc]
  · intro a b c
    rw [combineResults_def, combineResults_def, combineResults_def, combineResults_def]
    cases ha : a.expected <;> cases hb : b.expected <;>
      simp [ha, hb, List.append_assoc]
  · intro a b
    rw [combineResults_def, combineResults_def]
    cases ha : a.expected <;> cases hb : b.expected <;> simp [ha, hb]

/-!
Claim C7.
-/

theorem lookupKey_validationPatch_expected (ruleOracle : JSVal → ValidationResult)
    (r : JSVal) :
    ∃ pf, validationPatch ruleOracle r = JSVal.obj pf ∧
      lookupKey "expected" pf = some (JSVal.bool (ruleOracle r).expected) := by
  refine ⟨_, rfl, ?_⟩
  simp [lookupKey]

theorem propEqBool_validateField (ruleOracle : JSVal → ValidationResult)
    (r : JSVal) (b : Bool) :
    propEqBool "expected" b (validateField ruleOracle r) =
      ((ruleOracle r).expected == b) := by
  obtain ⟨pf, hpf, hlook⟩ := lookupKey_validationPatch_expected ruleOracle r
  cases r with
  | obj lf =>
      rw [validateField, hpf]
      rw [show mergeDeepLeft (JSVal.obj pf) (JSVal.obj lf) =
          JSVal.obj (mergeDeepObj false pf lf) from rfl]
      rw [propEqBool, lookupKey_mergeDeepObj, hlook]
      cases h1 : lookupKey "expected" lf with
      | none => simp
      | some rv =>
          have hm :
              mergeVal false (JSVal.bool (ruleOracle (JSVal.obj lf)).expected) rv =
                JSVal.bool (ruleOracle (JSVal.obj lf)).expected :=
            mergeVal_left_nonobj false _ rv (by simp [isObjV])
          simp [hm]
  | null =>
      rw [validateField, hpf]
      rw [show mergeDeepLeft (JSVal.obj pf) JSVal.null = JSVal.obj pf from rfl]
      rw [propEqBool, hlook]
  | bool b2 =>
      rw [validateField, hpf]
      rw [show mergeDeepLeft (JSVal.obj pf) (JSVal.bool b2) = JSVal.obj pf from rfl]
      rw [propEqBool, hlook]
  | num n =>
      rw [validateField, hpf]
      rw [show mergeDeepLeft (JSVal.obj pf) (JSVal.num n) = JSVal.obj pf from rfl]
      rw [propEqBool, hlook]
  | str s =>
      rw [validateField, hpf]
      rw [show mergeDeepLeft (JSVal.obj pf) (JSVal.str s) = JSVal.obj pf from rfl]
      rw [propEqBool, hlook]
  | arr items =>
      rw [validateField, hpf]
      rw [show mergeDeepLeft (JSVal.obj pf) (JSVal.arr items) = JSVal.obj pf from rfl]
      rw [propEqBool, hlook]

theorem validated_all_expected (ruleOracle : JSVal → ValidationResult)
    (leaves : List JSVal) :
    (leaves.map (validateField ruleOracle)).all (propEqBool "expected" true) =
      leaves.all (fun r => (ruleOracle r).expected) := by
  rw [List.all_map]
  congr 1
  funext r
  rw [Function.comp_apply, propEqBool_validateField]
  cases hE : (ruleOracle r).expected <;> simp

theorem validated_filter_invalid (ruleOracle : JSVal → ValidationResult)
    (leaves : List JSVal) :
    (leaves.map (validateField ruleOracle)).filter (propEqBool "expected" false) =
      (leaves.filter (fun r => !(ruleOracle r).expected)).map
        (validateField ruleOracle) := by
  rw [List.filter_map]
  congr 1
  apply List.filter_congr
  intro r hr
  rw [Function.comp_apply, propEqBool_validateField]
  cases hE : (ruleOracle r).expected <;> simp

theorem formValidate_fst (ruleOracle : JSVal → ValidationResult)
    (pred : JSVal → Bool) (fields : JSVal) (hasOnInvalid : Bool) :
    (formValidate ruleOracle pred fields hasOnInvalid).1 =
      (getLeavesWhich (validateLeafPred pred) fields).all
        (fun r => (ruleOracle r).expected) := by
  simp only [formValidate]
  exact validated_all_expected ruleOracle _

theorem formValidate_snd (ruleOracle : JSVal → ValidationResult)
    (pred : JSVal → Bool) (fields : JSVal) (hasOnInvalid : Bool) :
    (formValidate ruleOracle pred fields hasOnInvalid).2 =
      (if (!(getLeavesWhich (validateLeafPred pred) fields).all
            (fun r => (ruleOracle r).expected) && hasOnInvalid) = true then
        some
          (((getLeavesWhich (validateLeafPred pred) fields).filter
              (fun r => !(ruleOracle r).expected)).map
            (validateField ruleOracle))
      else none) := by
  simp only [formValidate]
  rw [validated_all_expected ruleOracle, validated_filter_invalid ruleOracle]

/-- C7: form-level validate validates exactly the leaves matching the
predicate (as filtered by allPass of is-object, has-fieldPath and the
predicate), returns true iff every validated leaf came back valid, and the
onInvalid callback receives exactly the validated records of the invalid
leaves, precisely when the aggregate is false and the callback is
configured. -/
theorem formValidate_spec (ruleOracle : JSVal → ValidationResult)
    (pred : JSVal → Bool) (fields : JSVal) (hasOnInvalid : Bool) :
    (formValidate ruleOracle pred fields hasOnInvalid).1 =
      (getLeavesWhich (validateLeafPred pred) fields).all
        (fun r => (ruleOracle r).expected) ∧
    (formValidate ruleOracle pred fields hasOnInvalid).2 =
      (if (!(getLeavesWhich (validateLeafPred pred) fields).all
            (fun r => (ruleOracle r).expected) && hasOnInvalid) = true then
        some
          (((getLeavesWhich (validateLeafPred pred) fields).filter
              (fun r => !(ruleOracle r).expected)).map
            (validateField ruleOracle))
      else none) :=
  ⟨formValidate_fst ruleOracle pred fields hasOnInvalid,
    formValidate_snd ruleOracle pred fields hasOnInvalid⟩

/-!
Claim C8.
-/

/-- C8: when form-level validate comes back false, submit aborts with no
result: the action is never invoked, onSubmitStart never fires, and no
completion hook runs. -/
theorem submit_invalid_aborts (ruleOracle : JSVal → ValidationResult)
    (fields : JSVal) (hasOnInvalid : Bool) (action : ActionResult)
    (h : (formValidate ruleOracle (fun _ => true) fields hasOnInvalid).1 = false) :
    submit ruleOracle fields hasOnInvalid action =
      SubmitTrace.mk false 0 false false false false false := by
  simp [submit, h]

/-- C8 witness: the concrete form holding one required empty field b is
invalid, and submitting it leaves every submission effect unfired. -/
theorem submit_invalid_aborts_witness :
    (formValidate requiredValueOracle (fun _ => true) sampleFieldsB true).1 =
      false ∧
    submit requiredValueOracle sampleFieldsB true
        (ActionResult.thenable (Except.ok JSVal.null)) =
      SubmitTrace.mk false 0 false false false false false := by
  have h :
      (formValidate requiredValueOracle (fun _ => true) sampleFieldsB true).1 =
        false := by
    rw [formValidate_fst requiredValueOracle (fun _ => true) sampleFieldsB true]
    simp [sampleFieldsB, sampleRecordB, getLeavesWhich, getLeavesWhichList,
      validateLeafPred, isObjV, hasKey, lookupKey, requiredValueOracle, pathOr,
      pathLookup, jsTruthy]
  exact ⟨h,
    submit_invalid_aborts requiredValueOracle sampleFieldsB true
      (ActionResult.thenable (Except.ok JSVal.null)) h⟩

/-!
Claim C9.
-/

/-- C9: on a valid form, an action returning a non-thenable value trips the
invariant assertion synchronously: the assertion failure is reported at the
point of misuse before any completion hook, and the action is invoked exactly
once (no retry). -/
theorem submit_nonthenable_assertion (ruleOracle : JSVal → ValidationResult)
    (fields : JSVal) (hasOnInvalid : Bool) (v : JSVal)
    (h : (formValidate ruleOracle (fun _ => true) fields hasOnInvalid).1 = true) :
    submit ruleOracle fields hasOnInvalid (ActionResult.nonThenable v) =
      SubmitTrace.mk true 1 true false false false false := by
  simp [submit, h]

/-- C9 witness: the sample form with an always-valid rule chain, submitted
with an action returning a plain value. -/
theorem submit_nonthenable_assertion_witness :
    (formValidate alwaysValidOracle (fun _ => true) sampleFieldsA false).1 =
      true ∧
    submit alwaysValidOracle sampleFieldsA false
        (ActionResult.nonThenable JSVal.null) =
      SubmitTrace.mk true 1 true false false false false := by
  have h :
      (formValidate alwaysValidOracle (fun _ => true) sampleFieldsA false).1 =
        true := by
    rw [formValidate_fst alwaysValidOracle (fun _ => true) sampleFieldsA false]
    simp [alwaysValidOracle]
  exact ⟨h,
    submit_nonthenable_assertion alwaysValidOracle sampleFieldsA false
      JSVal.null h⟩

/-!
Claim C10.
-/

/-- C10: a focus, change or blur event for a fieldPath absent from the
current tree is a silent no-op: the withRegisteredField guard short-circuits,
so the handler emits no patch, applies no direct patch, dispatches no field
hook and raises no error. -/
theorem field_handlers_unregistered_noop (fields : JSVal) (fp : List String)
    (body : Unit → FieldHandlerEffects) (blurPatch : JSVal)
    (h : pathLookup fp fields = none) :
    handleFieldFocus fields fp = noEffects ∧
    handleFieldChange body fields fp = noEffects ∧
    handleFieldBlur blurPatch fields fp = noEffects := by
  refine ⟨?_, ?_, ?_⟩ <;>
    simp [handleFieldFocus, handleFieldChange, handleFieldBlur,
      withRegisteredField, h]

/-- C10 witness: an empty fields tree with an event addressed to path a. -/
theorem field_handlers_unregistered_noop_witness :
    pathLookup ["a"] (JSVal.obj []) = none ∧
    (handleFieldFocus (JSVal.obj []) ["a"] = noEffects ∧
      handleFieldChange (fun _ => FieldHandlerEffects.mk [] [] 5 false)
          (JSVal.obj []) ["a"] = noEffects ∧
      handleFieldBlur JSVal.null (JSVal.obj []) ["a"] = noEffects) :=
  ⟨rfl,
    field_handlers_unregistered_noop (JSVal.obj []) ["a"]
      (fun _ => FieldHandlerEffects.mk [] [] 5 false) JSVal.null rfl⟩

end ReactAdvancedForm
